import Mathlib

/-!
UTXO consolidator: size estimator, spiciness rating, break-even rate and fee chart.

A shallow embedding of the pure functions of `utils.js` (`getWslpb`,
`getAddressType`, `estimateTransactionSize`), of their copies in `script.js`, of the
spiciness rating and the break-even rate computed in the click handler of `script.js`,
and of the bound and the sampling loop of `updateFeeChart`.

Numeric model.  A JavaScript number is either `NaN` or a finite value; the finite
values are modelled by rationals.  The size estimator, the rating, the fee and the
sampling loop are modelled with the exact value of each expression: every finite
quantity the size estimator computes from integer arguments is a multiple of `1/4`
(`10.5`, `57.5`, `wds / 4`), and the loop multiplies the size by integer rates, so
the exact value is the value the program computes as long as the operands stay in the
range where such values are exact.  The break-even rate, the balance in fiat and the
bound of the chart divide and multiply non-integers before a comparison or a ceiling;
there every operator rounds its result to the nearest double (`roundDouble`), as the
program does.  The value `Infinity` occurs only as the initial value of
`maxFeeRateToCalculate` and is modelled by an absent bound.

String model.  A JavaScript string is a sequence of UTF-16 code units;
`length` counts code units and `startsWith` compares code units.
-/

namespace UtxoConsolidator

/-! ## JavaScript numbers -/

/-- A JavaScript number as this program uses it: `NaN`, or a finite value. -/
inductive JsNumber where
  | nan : JsNumber
  | num (q : ℚ) : JsNumber
  deriving DecidableEq

namespace JsNumber

/-- The operator `+` on numbers: `NaN` is absorbing. -/
def add : JsNumber → JsNumber → JsNumber
  | num a, num b => num (a + b)
  | _, _ => nan

/-- The operator `*` on numbers: `NaN` is absorbing. -/
def mul : JsNumber → JsNumber → JsNumber
  | num a, num b => num (a * b)
  | _, _ => nan

/-- The function `Math.floor`: `Math.floor(NaN)` is `NaN`. -/
def floor : JsNumber → JsNumber
  | num q => num (⌊q⌋ : ℤ)
  | nan => nan

instance : Add JsNumber := ⟨add⟩
instance : Mul JsNumber := ⟨mul⟩

/-- The value `undefined` (a missing table entry) converts to `NaN` in arithmetic. -/
def ofLookup : Option ℚ → JsNumber
  | some q => num q
  | none => nan

end JsNumber

/-- Rounding to the nearest integer, a tie going to the even one. -/
def roundHalfEven (q : ℚ) : ℤ :=
  let f : ℤ := ⌊q⌋
  if q - f < 1 / 2 then f
  else if 1 / 2 < q - f then f + 1
  else if f % 2 = 0 then f
  else f + 1

/-- The double-precision number nearest to a rational, as the operators `/` and `*`
deliver it: 53 significant binary digits in the binade of the value (the exponent is
at least `-1022`), a tie going to the even last digit.  Results of magnitude `2 ^ 1024`
or more, where the program gets `Infinity`, are outside the model. -/
def roundDouble (q : ℚ) : ℚ :=
  if q = 0 then 0
  else
    let e : ℤ := max (Int.log 2 |q|) (-1022)
    let ulp : ℚ := 2 ^ (e - 52)
    roundHalfEven (q / ulp) * ulp

/-- The value `null` converts to `0` in arithmetic; a supplied integer is itself. -/
def toNumber (x : Option ℤ) : ℤ := x.getD 0

/-! ## JavaScript strings -/

/-- A JavaScript string: its UTF-16 code units. -/
abbrev JsString := List ℕ

/-- The UTF-16 code units of one Unicode scalar value. -/
def utf16Char (c : Char) : List ℕ :=
  if c.toNat < 65536 then [c.toNat]
  else [55296 + (c.toNat - 65536) / 1024, 56320 + (c.toNat - 65536) % 1024]

/-- The JavaScript string written by a literal. -/
def utf16 (s : String) : JsString := s.data.flatMap utf16Char

/-- The method `String.prototype.startsWith` at position 0. -/
def startsWith (s p : JsString) : Bool := p.isPrefixOf s

/-! ## `utils.js` -/

/-- The strings `getAddressType` returns. -/
inductive AddressKind where
  | P2PKH | P2SH | Bech32 | P2WSH | Taproot | Unknown
  deriving DecidableEq, Repr

/-- The string an address kind stands for. -/
def AddressKind.name : AddressKind → String
  | .P2PKH => "P2PKH"
  | .P2SH => "P2SH"
  | .Bech32 => "Bech32"
  | .P2WSH => "P2WSH"
  | .Taproot => "Taproot"
  | .Unknown => "Unknown"

/-- The function `getWslpb` of `utils.js`. -/
def getWslpb (wss : ℤ) : ℤ :=
  if wss ≤ 75 then 1
  else if wss ≤ 255 then 2
  else 3

/-- The function `getAddressType` of `utils.js`. -/
def getAddressType (address : JsString) : AddressKind :=
  if startsWith address (utf16 "1") then .P2PKH
  else if startsWith address (utf16 "3") then .P2SH
  else if startsWith address (utf16 "bc1q") && address.length == 42 then .Bech32
  else if startsWith address (utf16 "bc1q") && address.length == 62 then .P2WSH
  else if startsWith address (utf16 "bc1p") then .Taproot
  else .Unknown

/-- The table `outputSize` of `estimateTransactionSize`; `none` is a missing key. -/
def outputSize : AddressKind → Option ℚ
  | .P2PKH => some 34
  | .P2SH => some 32
  | .Bech32 => some 31
  | .P2WSH => some 43
  | .Taproot => some 43
  | .Unknown => none

/-- The table `inputSize` of `estimateTransactionSize`; `none` is a missing key. -/
def inputSize : AddressKind → Option ℚ
  | .P2PKH => some 148
  | .P2SH => some 91
  | .Bech32 => some 68
  | .P2WSH => some 140
  | .Taproot => some 57.5
  | .Unknown => none

/-- The per-input size `inputSizeVal` chosen by `estimateTransactionSize`, or the
error it throws. -/
def inputSizeVal (addressType : AddressKind) (m n : Option ℤ)
    (isLegacyP2shMultisig : Bool) : Except String JsNumber :=
  if isLegacyP2shMultisig && m.isSome && n.isSome then
    .ok (.num (41 + (toNumber m * 72) + (toNumber n * 34) : ℤ))
  else if addressType == .P2SH && m.isSome && n.isSome then
    let pubkeySize : ℤ := 33
    let sigSize : ℤ := 72
    let wss : ℤ := 1 + (toNumber n * (1 + pubkeySize)) + 1 + 1
    let wslpb := getWslpb wss
    let wds : ℤ := 1 + 1 + (toNumber m * (1 + sigSize)) + wslpb + wss
    .ok (.num (76 + ((wds : ℚ) / 4)))
  else if addressType == .P2WSH && m.isSome && n.isSome then
    let pubkeySize : ℤ := 33
    let sigSize : ℤ := 72
    let wss : ℤ := 1 + (toNumber n * (1 + pubkeySize)) + 1 + 1
    let wslpb := getWslpb wss
    let wds : ℤ := 1 + (toNumber m * (1 + sigSize)) + wslpb + wss
    .ok (.num ((wds : ℚ) / 4))
  else
    if !(inputSize addressType).isSome || !(outputSize addressType).isSome then
      .error ("Unknown address type for size estimation: " ++ addressType.name)
    else
      .ok (.ofLookup (inputSize addressType))

/-- The function `estimateTransactionSize` of `utils.js`. -/
def estimateTransactionSize (addressType : AddressKind) (numInputs numOutputs : ℕ)
    (m n : Option ℤ) (isLegacyP2shMultisig : Bool) : Except String JsNumber :=
  let txOverhead : ℚ := 10.5
  match inputSizeVal addressType m n isLegacyP2shMultisig with
  | .error e => .error e
  | .ok v =>
    let estimatedSize :=
      .num txOverhead
      + (.num numInputs * v)
      + (.num numOutputs * .ofLookup (outputSize addressType))
    .ok (JsNumber.floor estimatedSize)

/-! ## The spiciness rating of `script.js` -/

/-- The six rating texts the click handler of `script.js` chooses between. -/
inductive AsuRating where
  | Good | Mild | Medium | Hot | Fiery | Volcanic
  deriving DecidableEq, Repr

/-- The score `asu` computed by the click handler of `script.js`. -/
def asu (numUtxos : ℕ) (globalEstimatedSize globalCurrentRate : ℚ) : ℚ :=
  (numUtxos * globalEstimatedSize * globalCurrentRate) / 100000

/-- The rating `asuRatingText` chosen by the click handler of `script.js`. -/
def asuRatingText (asu : ℚ) : AsuRating :=
  if asu < 1 then .Good
  else if asu < 10 then .Mild
  else if asu < 100 then .Medium
  else if asu < 500 then .Hot
  else if asu < 1000 then .Fiery
  else .Volcanic

/-- The position of a rating in the order of severity, mildest first. -/
def AsuRating.severity : AsuRating → ℕ
  | .Good => 0
  | .Mild => 1
  | .Medium => 2
  | .Hot => 3
  | .Fiery => 4
  | .Volcanic => 5

/-! ## The break-even rate and the fee chart of `script.js` -/

/-- The fee `Math.floor(estimatedSize * rate)` in satoshis, as computed in `updateFeeChart`
(`fee`) and in the click handler (`currentFee`). -/
def fee (estimatedSize rate : ℚ) : ℤ := ⌊estimatedSize * rate⌋

/-- The value the click handler stores in `globalIntersectionFeeRate`; `none` is `null`. -/
def globalIntersectionFeeRate (totalBalance globalEstimatedSize : ℚ) : Option ℚ :=
  if globalEstimatedSize > 0 then some (roundDouble (totalBalance / globalEstimatedSize))
  else none

/-- The variable `maxFeeRateToCalculate` of `updateFeeChart`; `none` is `Infinity`. -/
def maxFeeRateToCalculate (estimatedSize totalBalanceUsd btcPriceUsd : ℚ) : Option ℚ :=
  if estimatedSize > 0 ∧ btcPriceUsd > 0 then
    let r : ℚ :=
      roundDouble (roundDouble (roundDouble (totalBalanceUsd / btcPriceUsd) * 100000000)
        / estimatedSize)
    some ((⌈roundDouble (r * roundDouble 1.2)⌉ : ℤ) : ℚ)
  else none

/-- The variable `chartMaxX` of `updateFeeChart` before it is clamped: the default, or
with scaling the larger of `dynamicMax` and 100. -/
def chartMaxXBeforeClamp (intersectionFeeRate : Option ℚ) (scaleXAxis : Bool) : ℚ :=
  let defaultMaxFeeRate : ℚ := 5000
  if scaleXAxis then
    let dynamicMax : ℚ :=
      match intersectionFeeRate with
      | some i => if i > 0 then max 0 (roundDouble (i * 1.5)) else 0
      | none => 0
    max dynamicMax 100
  else defaultMaxFeeRate

/-- The variable `chartMaxX` of `updateFeeChart` when the sampling loop starts: the
value before the clamp, clamped by `Math.min` to `maxFeeRateToCalculate`. -/
def chartMaxX (estimatedSize totalBalanceUsd btcPriceUsd : ℚ)
    (intersectionFeeRate : Option ℚ) (scaleXAxis : Bool) : ℚ :=
  match maxFeeRateToCalculate estimatedSize totalBalanceUsd btcPriceUsd with
  | some cap => min (chartMaxXBeforeClamp intersectionFeeRate scaleXAxis) cap
  | none => chartMaxXBeforeClamp intersectionFeeRate scaleXAxis

/-- The update of `rate` at the end of one round of the sampling loop. -/
def nextRate (rate : ℕ) : ℕ :=
  if rate < 10 then rate + 1
  else if rate < 50 then rate + 2
  else if rate < 200 then rate + 5
  else if rate < 1000 then rate + 25
  else if rate < 10000 then rate + 100
  else rate + 1000

/-- The sampling loop of `updateFeeChart` from a given `rate` on: the points
`(rate, feeUsd)` pushed to `feeRatesForChart` and `feeValuesUsdForChart`. -/
def feeChartLoop (estimatedSize btcPriceUsd chartMaxX : ℚ) (rate : ℕ) : List (ℕ × ℚ) :=
  if h : (rate : ℚ) ≤ chartMaxX then
    let feeUsd : ℚ := ((fee estimatedSize rate : ℚ) / 100000000) * btcPriceUsd
    (rate, feeUsd) :: feeChartLoop estimatedSize btcPriceUsd chartMaxX (nextRate rate)
  else []
termination_by ⌊chartMaxX⌋.toNat + 1 - rate
decreasing_by
  have h1 : (rate : ℤ) ≤ ⌊chartMaxX⌋ := Int.le_floor.mpr (by exact_mod_cast h)
  have h2 : rate < nextRate rate := by
    unfold nextRate
    split_ifs <;> omega
  omega

/-- The points sampled by `updateFeeChart`: the loop started at `rate = 1` with the
bound `chartMaxX`. -/
def updateFeeChart (estimatedSize totalBalanceUsd btcPriceUsd : ℚ)
    (intersectionFeeRate : Option ℚ) (scaleXAxis : Bool) : List (ℕ × ℚ) :=
  feeChartLoop estimatedSize btcPriceUsd
    (chartMaxX estimatedSize totalBalanceUsd btcPriceUsd intersectionFeeRate scaleXAxis) 1

/-- The value the click handler stores in `globalTotalBalanceUsd`. -/
def globalTotalBalanceUsd (totalBalance btcPriceUsd : ℚ) : ℚ :=
  roundDouble (roundDouble (totalBalance / 100000000) * btcPriceUsd)

/-! ## The copies in `script.js` of the functions of `utils.js` -/

namespace Script

/-- The function `getWslpb` of `script.js`. -/
def getWslpb (wss : ℤ) : ℤ :=
  if wss ≤ 75 then 1
  else if wss ≤ 255 then 2
  else 3

/-- The function `getAddressType` of `script.js`. -/
def getAddressType (address : JsString) : AddressKind :=
  if startsWith address (utf16 "1") then .P2PKH
  else if startsWith address (utf16 "3") then .P2SH
  else if startsWith address (utf16 "bc1q") && address.length == 42 then .Bech32
  else if startsWith address (utf16 "bc1q") && address.length == 62 then .P2WSH
  else if startsWith address (utf16 "bc1p") then .Taproot
  else .Unknown

/-- The table `outputSize` of `estimateTransactionSize` in `script.js`. -/
def outputSize : AddressKind → Option ℚ
  | .P2PKH => some 34
  | .P2SH => some 32
  | .Bech32 => some 31
  | .P2WSH => some 43
  | .Taproot => some 43
  | .Unknown => none

/-- The table `inputSize` of `estimateTransactionSize` in `script.js`. -/
def inputSize : AddressKind → Option ℚ
  | .P2PKH => some 148
  | .P2SH => some 91
  | .Bech32 => some 68
  | .P2WSH => some 140
  | .Taproot => some 57.5
  | .Unknown => none

/-- The per-input size `inputSizeVal` chosen by `estimateTransactionSize` in `script.js`,
or the error it throws. -/
def inputSizeVal (addressType : AddressKind) (m n : Option ℤ)
    (isLegacyP2shMultisig : Bool) : Except String JsNumber :=
  if isLegacyP2shMultisig && m.isSome && n.isSome then
    .ok (.num (41 + (toNumber m * 72) + (toNumber n * 34) : ℤ))
  else if addressType == .P2SH && m.isSome && n.isSome then
    let pubkeySize : ℤ := 33
    let sigSize : ℤ := 72
    let wss : ℤ := 1 + (toNumber n * (1 + pubkeySize)) + 1 + 1
    let wslpb := Script.getWslpb wss
    let wds : ℤ := 1 + 1 + (toNumber m * (1 + sigSize)) + wslpb + wss
    .ok (.num (76 + ((wds : ℚ) / 4)))
  else if addressType == .P2WSH && m.isSome && n.isSome then
    let pubkeySize : ℤ := 33
    let sigSize : ℤ := 72
    let wss : ℤ := 1 + (toNumber n * (1 + pubkeySize)) + 1 + 1
    let wslpb := Script.getWslpb wss
    let wds : ℤ := 1 + (toNumber m * (1 + sigSize)) + wslpb + wss
    .ok (.num ((wds : ℚ) / 4))
  else
    if !(Script.inputSize addressType).isSome || !(Script.outputSize addressType).isSome then
      .error ("Unknown address type for size estimation: " ++ addressType.name)
    else
      .ok (.ofLookup (Script.inputSize addressType))

/-- The function `estimateTransactionSize` of `script.js`. -/
def estimateTransactionSize (addressType : AddressKind) (numInputs numOutputs : ℕ)
    (m n : Option ℤ) (isLegacyP2shMultisig : Bool) : Except String JsNumber :=
  let txOverhead : ℚ := 10.5
  match Script.inputSizeVal addressType m n isLegacyP2shMultisig with
  | .error e => .error e
  | .ok v =>
    let estimatedSize :=
      .num txOverhead
      + (.num numInputs * v)
      + (.num numOutputs * .ofLookup (Script.outputSize addressType))
    .ok (JsNumber.floor estimatedSize)

end Script

/-! ## Results on `estimateTransactionSize` -/

/-- When the per-input size is a finite number and the output table has an entry,
the estimate is the floor of the weighted sum. -/
theorem estimate_of_inputSizeVal {k : AddressKind} {m n : Option ℤ} {l : Bool} {v o : ℚ}
    (hv : inputSizeVal k m n l = .ok (.num v)) (ho : outputSize k = some o)
    (ni no : ℕ) :
    estimateTransactionSize k ni no m n l
      = .ok (.num ((⌊(10.5 : ℚ) + ni * v + no * o⌋ : ℤ) : ℚ)) := by
  simp only [estimateTransactionSize, hv, ho, JsNumber.ofLookup]
  rfl

/-- Claim C1: with no multisig parameters and the legacy flag false, the estimate
for each of the five table kinds is the floor of `10.5 + numInputs * I + numOutputs * O`
with the per-input and per-output table values of that kind; one P2PKH input and output
give 192, one P2SH input and output give 133. -/
theorem C1_simple_table_estimate :
    (∀ ni no : ℕ, estimateTransactionSize .P2PKH ni no none none false
      = .ok (.num ((⌊(10.5 : ℚ) + ni * 148 + no * 34⌋ : ℤ) : ℚ)))
    ∧ (∀ ni no : ℕ, estimateTransactionSize .P2SH ni no none none false
      = .ok (.num ((⌊(10.5 : ℚ) + ni * 91 + no * 32⌋ : ℤ) : ℚ)))
    ∧ (∀ ni no : ℕ, estimateTransactionSize .Bech32 ni no none none false
      = .ok (.num ((⌊(10.5 : ℚ) + ni * 68 + no * 31⌋ : ℤ) : ℚ)))
    ∧ (∀ ni no : ℕ, estimateTransactionSize .P2WSH ni no none none false
      = .ok (.num ((⌊(10.5 : ℚ) + ni * 140 + no * 43⌋ : ℤ) : ℚ)))
    ∧ (∀ ni no : ℕ, estimateTransactionSize .Taproot ni no none none false
      = .ok (.num ((⌊(10.5 : ℚ) + ni * 57.5 + no * 43⌋ : ℤ) : ℚ)))
    ∧ estimateTransactionSize .P2PKH 1 1 none none false = .ok (.num 192)
    ∧ estimateTransactionSize .P2SH 1 1 none none false = .ok (.num 133) := by
  refine ⟨?_, ?_, ?_, ?_, ?_, ?_, ?_⟩
  · intro ni no; exact estimate_of_inputSizeVal (by rfl) (by rfl) ni no
  · intro ni no; exact estimate_of_inputSizeVal (by rfl) (by rfl) ni no
  · intro ni no; exact estimate_of_inputSizeVal (by rfl) (by rfl) ni no
  · intro ni no; exact estimate_of_inputSizeVal (by rfl) (by rfl) ni no
  · intro ni no; exact estimate_of_inputSizeVal (by rfl) (by rfl) ni no
  · rw [estimate_of_inputSizeVal (v := 148) (o := 34) (by rfl) (by rfl)]; norm_num
  · rw [estimate_of_inputSizeVal (v := 91) (o := 32) (by rfl) (by rfl)]; norm_num

/-- Claim C2: for kind P2WSH with both multisig parameters supplied and the legacy
flag false, the estimate is the floor of `10.5 + numInputs * (wds / 4) + numOutputs * 43`
with `wss = 1 + n * (1 + 33) + 1 + 1` and `wds = 1 + m * (1 + 72) + getWslpb wss + wss`,
the quotient `wds / 4` being exact; a 2-of-3 input with one output gives 117. -/
theorem C2_p2wsh_multisig_estimate :
    (∀ (ni no : ℕ) (m n : ℤ),
      estimateTransactionSize .P2WSH ni no (some m) (some n) false
        = .ok (.num ((⌊(10.5 : ℚ)
            + ni * (((1 + m * (1 + 72) + getWslpb (1 + n * (1 + 33) + 1 + 1)
                + (1 + n * (1 + 33) + 1 + 1) : ℤ) : ℚ) / 4)
            + no * 43⌋ : ℤ) : ℚ)))
    ∧ estimateTransactionSize .P2WSH 1 1 (some 2) (some 3) false = .ok (.num 117) := by
  have key : ∀ (ni no : ℕ) (m n : ℤ),
      estimateTransactionSize .P2WSH ni no (some m) (some n) false
        = .ok (.num ((⌊(10.5 : ℚ)
            + ni * (((1 + m * (1 + 72) + getWslpb (1 + n * (1 + 33) + 1 + 1)
                + (1 + n * (1 + 33) + 1 + 1) : ℤ) : ℚ) / 4)
            + no * 43⌋ : ℤ) : ℚ)) := by
    intro ni no m n
    exact estimate_of_inputSizeVal (by rfl) (by rfl) ni no
  refine ⟨key, ?_⟩
  rw [key]
  norm_num [getWslpb]

/-- Claim C3: for kind P2SH with both multisig parameters supplied and the legacy
flag true, the estimate is the floor of
`10.5 + numInputs * (41 + 72 * m + 34 * n) + numOutputs * 32`, with no division of the
input size; a 2-of-3 input with one output gives 329. -/
theorem C3_legacy_p2sh_multisig_estimate :
    (∀ (ni no : ℕ) (m n : ℤ),
      estimateTransactionSize .P2SH ni no (some m) (some n) true
        = .ok (.num ((⌊(10.5 : ℚ) + ni * (41 + 72 * m + 34 * n) + no * 32⌋ : ℤ) : ℚ)))
    ∧ estimateTransactionSize .P2SH 1 1 (some 2) (some 3) true = .ok (.num 329) := by
  have key : ∀ (ni no : ℕ) (m n : ℤ),
      estimateTransactionSize .P2SH ni no (some m) (some n) true
        = .ok (.num ((⌊(10.5 : ℚ) + ni * (41 + 72 * m + 34 * n) + no * 32⌋ : ℤ) : ℚ)) := by
    intro ni no m n
    have hv : inputSizeVal .P2SH (some m) (some n) true
        = .ok (.num (41 + 72 * m + 34 * n)) := by
      simp only [inputSizeVal, toNumber]
      norm_num
      ring
    exact estimate_of_inputSizeVal hv (by rfl) ni no
  refine ⟨key, ?_⟩
  rw [key]
  norm_num

/-- Claim C4: for kind P2SH with both multisig parameters supplied and the legacy
flag false, the estimate is the floor of
`10.5 + numInputs * (76 + wds / 4) + numOutputs * 32` with
`wss = 1 + n * (1 + 33) + 1 + 1` and `wds = 1 + 1 + m * (1 + 72) + getWslpb wss + wss`. -/
theorem C4_wrapped_p2sh_multisig_estimate (ni no : ℕ) (m n : ℤ) :
    estimateTransactionSize .P2SH ni no (some m) (some n) false
      = .ok (.num ((⌊(10.5 : ℚ)
          + ni * (76 + ((1 + 1 + m * (1 + 72) + getWslpb (1 + n * (1 + 33) + 1 + 1)
              + (1 + n * (1 + 33) + 1 + 1) : ℤ) : ℚ) / 4)
          + no * 32⌋ : ℤ) : ℚ)) :=
  estimate_of_inputSizeVal (by rfl) (by rfl) ni no

/-- Claim C5: when `m` or `n` is absent, the estimate fails with the error
"Unknown address type for size estimation" exactly when the kind is `Unknown`, and
returns a value exactly when the kind is one of the five table kinds, whatever the
counts and the legacy flag. -/
theorem C5_unknown_kind_fails (k : AddressKind) (ni no : ℕ) (m n : Option ℤ) (l : Bool)
    (h : m = none ∨ n = none) :
    (estimateTransactionSize k ni no m n l
        = .error "Unknown address type for size estimation: Unknown" ↔ k = .Unknown)
    ∧ ((∃ v, estimateTransactionSize k ni no m n l = .ok v) ↔ k ≠ .Unknown) := by
  have hb : (m.isSome && n.isSome) = false := by
    rcases h with h | h <;> subst h <;> simp
  have hv : inputSizeVal k m n l
      = if !(inputSize k).isSome || !(outputSize k).isSome then
          .error ("Unknown address type for size estimation: " ++ k.name)
        else .ok (.ofLookup (inputSize k)) := by
    simp only [inputSizeVal, Bool.and_assoc, hb, Bool.and_false]
    rfl
  cases k <;> simp [estimateTransactionSize, hv, inputSize, outputSize, AddressKind.name]

/-- Witness for claim C5 at kind `Unknown`, three inputs, one output, `n` absent. -/
theorem C5_unknown_kind_fails_witness :
    ((some 2 : Option ℤ) = none ∨ (none : Option ℤ) = none)
    ∧ (estimateTransactionSize .Unknown 3 1 (some 2) none true
        = .error "Unknown address type for size estimation: Unknown"
          ↔ AddressKind.Unknown = .Unknown)
    ∧ ((∃ v, estimateTransactionSize .Unknown 3 1 (some 2) none true = .ok v)
          ↔ AddressKind.Unknown ≠ .Unknown) :=
  ⟨Or.inr rfl, C5_unknown_kind_fails .Unknown 3 1 (some 2) none true (Or.inr rfl)⟩

/-- Claim C6: at kind `Unknown` with the legacy flag true and both multisig parameters
supplied, the estimate returns a value and that value is `NaN`, not a non-negative
integer. -/
theorem C6_unknown_legacy_returns_nan :
    estimateTransactionSize .Unknown 1 1 (some 2) (some 3) true = .ok .nan := by
  rfl

/-- The length-prefix byte count is at least one. -/
theorem one_le_getWslpb (wss : ℤ) : 1 ≤ getWslpb wss := by
  unfold getWslpb
  split_ifs <;> norm_num

/-- For a table kind and multisig parameters that are at least one when supplied, the
per-input size is a non-negative finite number and the output table has a non-negative
entry. -/
theorem inputSizeVal_known (k : AddressKind) (hk : k ≠ .Unknown) (m n : Option ℤ)
    (l : Bool) (hm : ∀ a ∈ m, 1 ≤ a) (hn : ∀ b ∈ n, 1 ≤ b) :
    ∃ v o : ℚ, 0 ≤ v ∧ 0 ≤ o ∧ inputSizeVal k m n l = .ok (.num v)
      ∧ outputSize k = some o := by
  have table : ∀ k : AddressKind, k ≠ .Unknown →
      ∃ v o : ℚ, 0 ≤ v ∧ 0 ≤ o ∧ inputSize k = some v ∧ outputSize k = some o := by
    intro k hk
    cases k
    · exact ⟨148, 34, by norm_num, by norm_num, rfl, rfl⟩
    · exact ⟨91, 32, by norm_num, by norm_num, rfl, rfl⟩
    · exact ⟨68, 31, by norm_num, by norm_num, rfl, rfl⟩
    · exact ⟨140, 43, by norm_num, by norm_num, rfl, rfl⟩
    · exact ⟨57.5, 43, by norm_num, by norm_num, rfl, rfl⟩
    · exact absurd rfl hk
  obtain ⟨v, o, hv, ho, hin, hout⟩ := table k hk
  rcases m with _ | a
  · refine ⟨v, o, hv, ho, ?_, hout⟩
    simp [inputSizeVal, hin, hout, JsNumber.ofLookup]
  rcases n with _ | b
  · refine ⟨v, o, hv, ho, ?_, hout⟩
    simp [inputSizeVal, hin, hout, JsNumber.ofLookup]
  have ha : (1 : ℚ) ≤ a := by exact_mod_cast hm a rfl
  have hb : (1 : ℚ) ≤ b := by exact_mod_cast hn b rfl
  have hw : (1 : ℚ) ≤ (getWslpb (1 + b * 34 + 1 + 1) : ℤ) := by
    exact_mod_cast one_le_getWslpb _
  cases l
  · by_cases h1 : k = .P2SH
    · subst h1
      refine ⟨76 + ((1 + 1 + a * (1 + 72) + getWslpb (1 + b * (1 + 33) + 1 + 1)
          + (1 + b * (1 + 33) + 1 + 1) : ℤ) : ℚ) / 4, o, ?_, ho, by rfl, hout⟩
      push_cast
      linarith
    by_cases h2 : k = .P2WSH
    · subst h2
      refine ⟨((1 + a * (1 + 72) + getWslpb (1 + b * (1 + 33) + 1 + 1)
          + (1 + b * (1 + 33) + 1 + 1) : ℤ) : ℚ) / 4, o, ?_, ho, by rfl, hout⟩
      push_cast
      linarith
    refine ⟨v, o, hv, ho, ?_, hout⟩
    simp [inputSizeVal, h1, h2, hin, hout, JsNumber.ofLookup]
  · refine ⟨((41 + a * 72 + b * 34 : ℤ) : ℚ), o, ?_, ho, ?_, hout⟩
    · push_cast
      linarith
    · simp [inputSizeVal, toNumber]

/-- For a table kind and multisig parameters that are at least one when supplied, the
estimate is a non-negative integer. -/
theorem estimate_known_nonneg_integer (k : AddressKind) (hk : k ≠ .Unknown)
    (m n : Option ℤ) (l : Bool) (hm : ∀ a ∈ m, 1 ≤ a) (hn : ∀ b ∈ n, 1 ≤ b)
    (ni no : ℕ) :
    ∃ x : ℤ, 0 ≤ x ∧ estimateTransactionSize k ni no m n l = .ok (.num x) := by
  obtain ⟨v, o, hv, ho, hin, hout⟩ := inputSizeVal_known k hk m n l hm hn
  refine ⟨_, ?_, estimate_of_inputSizeVal hin hout ni no⟩
  rw [Int.floor_nonneg]
  have h1 : (0 : ℚ) ≤ ni * v := mul_nonneg (Nat.cast_nonneg _) hv
  have h2 : (0 : ℚ) ≤ no * o := mul_nonneg (Nat.cast_nonneg _) ho
  linarith

/-- At kind `Unknown` the estimate is `NaN` when the legacy flag is true and both
multisig parameters are supplied, and fails otherwise. -/
theorem estimate_unknown (ni no : ℕ) (m n : Option ℤ) (l : Bool) :
    estimateTransactionSize .Unknown ni no m n l
      = if l && m.isSome && n.isSome then .ok .nan
        else .error "Unknown address type for size estimation: Unknown" := by
  cases l <;> cases m <;> cases n <;> rfl

/-- Claim C7: for every table kind, every choice of multisig parameters that are at
least one when supplied (in particular whenever `1 ≤ m ≤ n`), either value of the legacy
flag and every number of outputs, the estimate returns an integer for every number of
inputs and does not decrease when the number of inputs grows. -/
theorem C7_monotone_in_inputs (k : AddressKind) (hk : k ≠ .Unknown) (m n : Option ℤ)
    (l : Bool) (hm : ∀ a ∈ m, 1 ≤ a) (hn : ∀ b ∈ n, 1 ≤ b) (no a b : ℕ) (hab : a ≤ b) :
    ∃ x y : ℤ, estimateTransactionSize k a no m n l = .ok (.num x)
      ∧ estimateTransactionSize k b no m n l = .ok (.num y) ∧ x ≤ y := by
  obtain ⟨v, o, hv, -, hin, hout⟩ := inputSizeVal_known k hk m n l hm hn
  refine ⟨_, _, estimate_of_inputSizeVal hin hout a no,
    estimate_of_inputSizeVal hin hout b no, ?_⟩
  apply Int.floor_le_floor
  have hc : (a : ℚ) ≤ b := by exact_mod_cast hab
  have := mul_le_mul_of_nonneg_right hc hv
  linarith

/-- Witness for claim C7 at a 2-of-3 P2WSH input shape, growing from 1 to 4 inputs. -/
theorem C7_monotone_in_inputs_witness :
    ∃ x y : ℤ, estimateTransactionSize .P2WSH 1 1 (some 2) (some 3) false = .ok (.num x)
      ∧ estimateTransactionSize .P2WSH 4 1 (some 2) (some 3) false = .ok (.num y)
      ∧ x ≤ y :=
  C7_monotone_in_inputs .P2WSH (by decide) (some 2) (some 3) false
    (by intro a ha; cases ha; decide)
    (by intro b hb; cases hb; decide) 1 1 4 (by decide)

/-! ## Results on `getAddressType` and `getWslpb` -/

/-- Claim C8: `getAddressType` returns the kind of the first rule that matches, in the
order: starts with "1", P2PKH; starts with "3", P2SH; starts with "bc1q" and has length
42, Bech32; starts with "bc1q" and has length 62, P2WSH; starts with "bc1p", Taproot;
otherwise Unknown.  A "bc1q" string of any other length and the empty string are
Unknown, and the six sample addresses are classified as the tests expect. -/
theorem C8_getAddressType_first_match :
    (∀ address : JsString, getAddressType address =
      if utf16 "1" <+: address then AddressKind.P2PKH
      else if utf16 "3" <+: address then AddressKind.P2SH
      else if utf16 "bc1q" <+: address ∧ address.length = 42 then AddressKind.Bech32
      else if utf16 "bc1q" <+: address ∧ address.length = 62 then AddressKind.P2WSH
      else if utf16 "bc1p" <+: address then AddressKind.Taproot
      else AddressKind.Unknown)
    ∧ (∀ rest : JsString, getAddressType (utf16 "bc1q" ++ rest) =
      if (utf16 "bc1q" ++ rest).length = 42 then AddressKind.Bech32
      else if (utf16 "bc1q" ++ rest).length = 62 then AddressKind.P2WSH
      else AddressKind.Unknown)
    ∧ getAddressType (utf16 "") = .Unknown
    ∧ getAddressType (utf16 "1abc") = .P2PKH
    ∧ getAddressType (utf16 "3xyz") = .P2SH
    ∧ getAddressType (utf16 "bc1q" ++ List.replicate 38 ('a').toNat) = .Bech32
    ∧ getAddressType (utf16 "bc1q" ++ List.replicate 58 ('a').toNat) = .P2WSH
    ∧ getAddressType (utf16 "bc1pa") = .Taproot
    ∧ getAddressType (utf16 "zzzz") = .Unknown := by
  have rules : ∀ address : JsString, getAddressType address =
      if utf16 "1" <+: address then AddressKind.P2PKH
      else if utf16 "3" <+: address then AddressKind.P2SH
      else if utf16 "bc1q" <+: address ∧ address.length = 42 then AddressKind.Bech32
      else if utf16 "bc1q" <+: address ∧ address.length = 62 then AddressKind.P2WSH
      else if utf16 "bc1p" <+: address then AddressKind.Taproot
      else AddressKind.Unknown := by
    intro address
    simp only [getAddressType, startsWith, List.isPrefixOf_iff_prefix, Bool.and_eq_true,
      beq_iff_eq, decide_eq_true_eq]
  refine ⟨rules, ?_, by decide, by decide, by decide, by decide, by decide, by decide,
    by decide⟩
  intro rest
  have h4 : utf16 "bc1q" = [98, 99, 49, 113] := by decide
  rw [rules, h4]
  have hp : [98, 99, 49, 113] <+: [98, 99, 49, 113] ++ rest := List.prefix_append _ _
  have h1 : ¬ utf16 "1" <+: [98, 99, 49, 113] ++ rest := by
    have : utf16 "1" = [49] := by decide
    rw [this]
    rintro ⟨t, ht⟩
    simp at ht
  have h3 : ¬ utf16 "3" <+: [98, 99, 49, 113] ++ rest := by
    have : utf16 "3" = [51] := by decide
    rw [this]
    rintro ⟨t, ht⟩
    simp at ht
  have hpp : ¬ utf16 "bc1p" <+: [98, 99, 49, 113] ++ rest := by
    have : utf16 "bc1p" = [98, 99, 49, 112] := by decide
    rw [this]
    rintro ⟨t, ht⟩
    simp at ht
  simp only [h1, h3, hp, hpp, if_false, true_and]

/-- Claim C9: `getWslpb` is 1 exactly for sizes up to 75, 2 exactly for sizes from 76
to 255, and 3 exactly for sizes from 256; its value is always 1, 2 or 3 and does not
decrease when the size grows; the boundary sizes 75, 76, 255, 256 give 1, 2, 2, 3. -/
theorem C9_getWslpb_bands :
    (∀ wss : ℤ, getWslpb wss = 1 ↔ wss ≤ 75)
    ∧ (∀ wss : ℤ, getWslpb wss = 2 ↔ 76 ≤ wss ∧ wss ≤ 255)
    ∧ (∀ wss : ℤ, getWslpb wss = 3 ↔ 256 ≤ wss)
    ∧ (∀ wss : ℤ, getWslpb wss = 1 ∨ getWslpb wss = 2 ∨ getWslpb wss = 3)
    ∧ Monotone getWslpb
    ∧ getWslpb 75 = 1 ∧ getWslpb 76 = 2 ∧ getWslpb 255 = 2 ∧ getWslpb 256 = 3 := by
  refine ⟨?_, ?_, ?_, ?_, ?_, by decide, by decide, by decide, by decide⟩
  · intro wss
    unfold getWslpb
    split_ifs <;> constructor <;> intro h <;> omega
  · intro wss
    unfold getWslpb
    split_ifs <;> constructor <;> intro h <;> omega
  · intro wss
    unfold getWslpb
    split_ifs <;> constructor <;> intro h <;> omega
  · intro wss
    unfold getWslpb
    split_ifs <;> simp
  · intro a b hab
    unfold getWslpb
    split_ifs <;> omega

/-! ## Results on the spiciness rating -/

/-- Claim C10: the score is `numUtxos * size * rate / 100000`, and the rating is Good
exactly below 1, Mild exactly on `[1, 10)`, Medium exactly on `[10, 100)`, Hot exactly
on `[100, 500)`, Fiery exactly on `[500, 1000)` and Volcanic exactly from 1000 on, so
every boundary score belongs to the higher band; the severity of the rating does not
decrease when the score grows. -/
theorem C10_spiciness_bands :
    (∀ (numUtxos : ℕ) (size rate : ℚ),
      asu numUtxos size rate = numUtxos * size * rate / 100000)
    ∧ (∀ s : ℚ, asuRatingText s = .Good ↔ s < 1)
    ∧ (∀ s : ℚ, asuRatingText s = .Mild ↔ 1 ≤ s ∧ s < 10)
    ∧ (∀ s : ℚ, asuRatingText s = .Medium ↔ 10 ≤ s ∧ s < 100)
    ∧ (∀ s : ℚ, asuRatingText s = .Hot ↔ 100 ≤ s ∧ s < 500)
    ∧ (∀ s : ℚ, asuRatingText s = .Fiery ↔ 500 ≤ s ∧ s < 1000)
    ∧ (∀ s : ℚ, asuRatingText s = .Volcanic ↔ 1000 ≤ s)
    ∧ Monotone (fun s : ℚ => (asuRatingText s).severity)
    ∧ asuRatingText 1 = .Mild ∧ asuRatingText 10 = .Medium ∧ asuRatingText 100 = .Hot
    ∧ asuRatingText 500 = .Fiery ∧ asuRatingText 1000 = .Volcanic := by
  have band : ∀ (s : ℚ) (r : AsuRating) (P : Prop),
      (asuRatingText s = r → P) → (P → asuRatingText s = r) → (asuRatingText s = r ↔ P) :=
    fun _ _ _ h₁ h₂ => ⟨h₁, h₂⟩
  refine ⟨fun _ _ _ => rfl, ?_, ?_, ?_, ?_, ?_, ?_, ?_, ?_, ?_, ?_, ?_, ?_⟩
  · intro s
    apply band <;> unfold asuRatingText <;> split_ifs <;> intro h <;>
      first
      | exact absurd h (by decide)
      | rfl
      | linarith
  · intro s
    apply band <;> unfold asuRatingText <;> split_ifs <;> intro h <;>
      first
      | exact absurd h (by decide)
      | rfl
      | exact ⟨by linarith, by linarith⟩
      | (exfalso; linarith [h.1, h.2])
  · intro s
    apply band <;> unfold asuRatingText <;> split_ifs <;> intro h <;>
      first
      | exact absurd h (by decide)
      | rfl
      | exact ⟨by linarith, by linarith⟩
      | (exfalso; linarith [h.1, h.2])
  · intro s
    apply band <;> unfold asuRatingText <;> split_ifs <;> intro h <;>
      first
      | exact absurd h (by decide)
      | rfl
      | exact ⟨by linarith, by linarith⟩
      | (exfalso; linarith [h.1, h.2])
  · intro s
    apply band <;> unfold asuRatingText <;> split_ifs <;> intro h <;>
      first
      | exact absurd h (by decide)
      | rfl
      | exact ⟨by linarith, by linarith⟩
      | (exfalso; linarith [h.1, h.2])
  · intro s
    apply band <;> unfold asuRatingText <;> split_ifs <;> intro h <;>
      first
      | exact absurd h (by decide)
      | rfl
      | linarith
  · intro s t hst
    simp only [asuRatingText]
    split_ifs <;> simp only [AsuRating.severity] <;> first | omega | linarith
  all_goals (unfold asuRatingText; norm_num)

/-! ## Results on the rounding of doubles -/

/-- Rounding to the nearest integer moves a value by at most one half. -/
theorem abs_roundHalfEven_sub_le (q : ℚ) : |(roundHalfEven q : ℚ) - q| ≤ 1 / 2 := by
  have h1 := Int.floor_le q
  have h2 := Int.lt_floor_add_one q
  unfold roundHalfEven
  simp only
  split_ifs with a b c
  · rw [abs_le]; constructor <;> linarith
  · rw [abs_le]; constructor <;> push_cast <;> linarith
  · rw [abs_le]; constructor <;> linarith
  · rw [abs_le]; constructor <;> push_cast <;> linarith

/-- The binary exponent of a positive rational, from the binade it lies in. -/
theorem log_eq_of_binade {q : ℚ} {e : ℤ} (h1 : (2 : ℚ) ^ e ≤ q)
    (h2 : q < (2 : ℚ) ^ (e + 1)) : Int.log 2 q = e := by
  have hq : 0 < q := lt_of_lt_of_le (by positivity) h1
  have a : e ≤ Int.log 2 q :=
    (Int.zpow_le_iff_le_log (by norm_num) hq).mp (by exact_mod_cast h1)
  have b : Int.log 2 q < e + 1 :=
    (Int.lt_zpow_iff_log_lt (by norm_num) hq).mp (by exact_mod_cast h2)
  omega

/-- The double nearest to a rational whose binade and rounded significand are known. -/
theorem roundDouble_eq_of_binade {q : ℚ} (e k : ℤ) (h1 : (2 : ℚ) ^ e ≤ |q|)
    (h2 : |q| < (2 : ℚ) ^ (e + 1)) (he : -1022 ≤ e)
    (hk : roundHalfEven (q / 2 ^ (e - 52)) = k) :
    roundDouble q = k * 2 ^ (e - 52) := by
  have hq : q ≠ 0 := by
    intro h
    rw [h, abs_zero] at h1
    exact absurd h1 (not_le.mpr (by positivity))
  simp only [roundDouble, hq, if_false, log_eq_of_binade h1 h2, max_eq_left he, hk]

/-- The double nearest to a non-negative rational is non-negative. -/
theorem roundDouble_nonneg {q : ℚ} (hq : 0 ≤ q) : 0 ≤ roundDouble q := by
  unfold roundDouble
  split_ifs with h0
  · exact le_rfl
  · simp only
    have hu : (0 : ℚ) < 2 ^ (max (Int.log 2 |q|) (-1022) - 52) := by positivity
    have hx : 0 ≤ q / 2 ^ (max (Int.log 2 |q|) (-1022) - 52) := div_nonneg hq hu.le
    have hf : (0 : ℤ) ≤ ⌊q / 2 ^ (max (Int.log 2 |q|) (-1022) - 52)⌋ := Int.floor_nonneg.mpr hx
    have hr : (0 : ℤ) ≤ roundHalfEven (q / 2 ^ (max (Int.log 2 |q|) (-1022) - 52)) := by
      unfold roundHalfEven
      simp only
      split_ifs <;> omega
    exact mul_nonneg (by exact_mod_cast hr) hu.le

/-- Rounding to the nearest double moves a value by at most the fraction `2 ^ (-53)` of
its magnitude, or by at most `2 ^ (-1075)` below the normal range. -/
theorem abs_roundDouble_sub_le (q : ℚ) :
    |roundDouble q - q| ≤ |q| / 2 ^ 53 + 1 / 2 ^ 1075 := by
  by_cases hq : q = 0
  · subst hq
    simp [roundDouble]
  have hpos : 0 < |q| := abs_pos.mpr hq
  have hstep : ∀ e : ℤ, (2 : ℚ) ^ (e - 52) / 2 ≤ |q| / 2 ^ 53 + 1 / 2 ^ 1075 →
      |(roundHalfEven (q / 2 ^ (e - 52)) : ℚ) * 2 ^ (e - 52) - q|
        ≤ |q| / 2 ^ 53 + 1 / 2 ^ 1075 := by
    intro e he
    have hu : (0 : ℚ) < 2 ^ (e - 52) := by positivity
    have h := abs_roundHalfEven_sub_le (q / 2 ^ (e - 52))
    have hm : (roundHalfEven (q / 2 ^ (e - 52)) : ℚ) * 2 ^ (e - 52) - q
        = ((roundHalfEven (q / 2 ^ (e - 52)) : ℚ) - q / 2 ^ (e - 52)) * 2 ^ (e - 52) := by
      field_simp
    rw [hm, abs_mul, abs_of_pos hu]
    have := mul_le_mul_of_nonneg_right h hu.le
    linarith
  simp only [roundDouble, hq, if_false]
  apply hstep
  rcases le_total (Int.log 2 |q|) (-1022) with hle | hge
  · rw [max_eq_right hle]
    have h0 : (0 : ℚ) ≤ |q| / 2 ^ 53 := by positivity
    have h1 : (2 : ℚ) ^ ((-1022 : ℤ) - 52) / 2 = 1 / 2 ^ 1075 := by
      rw [show ((-1022 : ℤ) - 52) = -(1074 : ℕ) by norm_num, zpow_neg, zpow_natCast]
      rw [pow_succ (2 : ℚ) 1074]
      field_simp
    linarith
  · rw [max_eq_left hge]
    have hl : (2 : ℚ) ^ Int.log 2 |q| ≤ |q| := by
      have := Int.zpow_log_le_self (b := 2) (by norm_num) hpos
      exact_mod_cast this
    have h0 : (0 : ℚ) ≤ 1 / 2 ^ 1075 := by positivity
    have h1 : (2 : ℚ) ^ (Int.log 2 |q| - 52) / 2 = 2 ^ Int.log 2 |q| / 2 ^ 53 := by
      rw [zpow_sub₀ (by norm_num : (2 : ℚ) ≠ 0), zpow_ofNat, pow_succ (2 : ℚ) 52]
      field_simp
    have h2 : (2 : ℚ) ^ Int.log 2 |q| / 2 ^ 53 ≤ |q| / 2 ^ 53 :=
      div_le_div_of_nonneg_right hl (by positivity)
    linarith

/-! ## Results on the break-even rate and the fee -/

/-- The break-even rate stored for a balance of 1000 satoshis and a size of 340. -/
theorem globalIntersectionFeeRate_1000_340 :
    globalIntersectionFeeRate 1000 340 = some (827867578560753 / 281474976710656) := by
  have h : roundDouble (1000 / 340) = 6622940628486024 * 2 ^ ((1 : ℤ) - 52) := by
    apply roundDouble_eq_of_binade 1 _
    · norm_num [abs_of_pos]
    · norm_num [abs_of_pos]
    · norm_num
    · norm_num [roundHalfEven]
  rw [globalIntersectionFeeRate, if_pos (by norm_num), h]
  norm_num

/-- The break-even rate stored for a balance of 49 satoshis and a size of 340. -/
theorem globalIntersectionFeeRate_49_340 :
    globalIntersectionFeeRate 49 340 = some (2596192726366521 / 18014398509481984) := by
  have h : roundDouble (49 / 340) = 5192385452733042 * 2 ^ ((-3 : ℤ) - 52) := by
    apply roundDouble_eq_of_binade (-3) _
    · norm_num [abs_of_pos]
    · norm_num [abs_of_pos]
    · norm_num
    · norm_num [roundHalfEven]
  rw [globalIntersectionFeeRate, if_pos (by norm_num), h]
  norm_num

/-- Claim C11, counterexample: at the size `-62` the stored break-even rate is absent
although the size is not 0; at balance 1000 and size 340 the stored rate times the size
is not the balance; at balance 49 and size 340 the fee at the stored rate is 48. -/
theorem C11_break_even_not_exact :
    (globalIntersectionFeeRate 1000 (-62) = none ∧ (-62 : ℚ) ≠ 0)
    ∧ (globalIntersectionFeeRate 1000 340 = some (827867578560753 / 281474976710656)
        ∧ (827867578560753 / 281474976710656 : ℚ) * 340 ≠ 1000)
    ∧ (globalIntersectionFeeRate 49 340 = some (2596192726366521 / 18014398509481984)
        ∧ fee 340 (2596192726366521 / 18014398509481984) = 48) := by
  refine ⟨⟨?_, by norm_num⟩, ⟨globalIntersectionFeeRate_1000_340, by norm_num⟩,
    ⟨globalIntersectionFeeRate_49_340, ?_⟩⟩
  · rw [globalIntersectionFeeRate, if_neg (by norm_num)]
  · norm_num [fee]

/-- Claim C11, amended: the stored break-even rate is absent exactly when the estimated
size is not positive; for a positive size it is the double nearest to `balance / size`,
and the fee at that rate matches the balance up to the rounding of the quotient:
`rate * size` differs from the balance by at most `|balance| / 2 ^ 53 + size / 2 ^ 1075`. -/
theorem C11_break_even_rate_amended (balance size : ℚ) :
    (globalIntersectionFeeRate balance size = none ↔ size ≤ 0)
    ∧ (0 < size → ∃ r : ℚ, globalIntersectionFeeRate balance size = some r
        ∧ r = roundDouble (balance / size)
        ∧ |r * size - balance| ≤ |balance| / 2 ^ 53 + size / 2 ^ 1075) := by
  constructor
  · unfold globalIntersectionFeeRate
    by_cases h : size > 0
    · simp [h]
    · simp [h, not_lt.mp h]
  · intro hs
    refine ⟨roundDouble (balance / size), ?_, rfl, ?_⟩
    · rw [globalIntersectionFeeRate, if_pos hs]
    · have h := abs_roundDouble_sub_le (balance / size)
      have hm : roundDouble (balance / size) * size - balance
          = (roundDouble (balance / size) - balance / size) * size := by
        field_simp
      rw [hm, abs_mul, abs_of_pos hs]
      have h2 := mul_le_mul_of_nonneg_right h hs.le
      have h3 : (|balance / size| / 2 ^ 53 + 1 / 2 ^ 1075) * size
          = |balance| / 2 ^ 53 + size / 2 ^ 1075 := by
        rw [abs_div, abs_of_pos hs]
        field_simp
        ring
      linarith

/-- Witness for claim C11 as amended, at a balance of 1000 satoshis and a size of 340. -/
theorem C11_break_even_rate_amended_witness :
    ∃ r : ℚ, globalIntersectionFeeRate 1000 340 = some r
      ∧ r = roundDouble (1000 / 340)
      ∧ |r * 340 - 1000| ≤ |(1000 : ℚ)| / 2 ^ 53 + 340 / 2 ^ 1075 :=
  (C11_break_even_rate_amended 1000 340).2 (by norm_num)

/-- Claim C14: for a non-negative size the fee `floor (size * rate)` does not decrease
when the rate grows from `r1 ≥ 0` to `r2 ≥ r1`, and the fee at rate 0 is 0. -/
theorem C14_fee_monotone (size r1 r2 : ℚ) (hs : 0 ≤ size) (h1 : 0 ≤ r1) (h12 : r1 ≤ r2) :
    fee size r1 ≤ fee size r2 ∧ 0 ≤ fee size r1 ∧ fee size 0 = 0 := by
  refine ⟨Int.floor_le_floor (mul_le_mul_of_nonneg_left h12 hs), ?_, ?_⟩
  · exact Int.floor_nonneg.mpr (mul_nonneg hs h1)
  · simp [fee]

/-- Witness for claim C14 at size 192 and the rates 1.5 and 2. -/
theorem C14_fee_monotone_witness :
    fee 192 1.5 ≤ fee 192 2 ∧ 0 ≤ fee 192 1.5 ∧ fee 192 0 = 0 :=
  C14_fee_monotone 192 1.5 2 (by norm_num) (by norm_num) (by norm_num)

/-! ## Results on the copies in `script.js` -/

/-- Claim C16: the copies of `getWslpb`, `getAddressType` and `estimateTransactionSize`
in `script.js` return, on every input, the same value or the same failure as the
functions of `utils.js`; in particular they pass the tests of `utils.js`. -/
theorem C16_script_copies_agree :
    (∀ wss : ℤ, Script.getWslpb wss = getWslpb wss)
    ∧ (∀ address : JsString, Script.getAddressType address = getAddressType address)
    ∧ (∀ (addressType : AddressKind) (numInputs numOutputs : ℕ) (m n : Option ℤ)
        (isLegacyP2shMultisig : Bool),
        Script.estimateTransactionSize addressType numInputs numOutputs m n
            isLegacyP2shMultisig
          = estimateTransactionSize addressType numInputs numOutputs m n
            isLegacyP2shMultisig) := by
  have hw : ∀ wss : ℤ, Script.getWslpb wss = getWslpb wss := fun _ => rfl
  have hi : ∀ k, Script.inputSize k = inputSize k := fun k => by cases k <;> rfl
  have ho : ∀ k, Script.outputSize k = outputSize k := fun k => by cases k <;> rfl
  refine ⟨hw, fun _ => rfl, ?_⟩
  intro k ni no m n l
  have hv : Script.inputSizeVal k m n l = inputSizeVal k m n l := by
    simp only [Script.inputSizeVal, inputSizeVal, hw, hi, ho]
  simp only [Script.estimateTransactionSize, estimateTransactionSize, hv, ho]

/-! ## Results on the sampling loop of `updateFeeChart` -/

/-- Every round of the sampling loop increases `rate`. -/
theorem lt_nextRate (rate : ℕ) : rate < nextRate rate := by
  unfold nextRate
  split_ifs <;> omega

/-- One round of the loop when the rate is within the bound. -/
theorem feeChartLoop_of_le {s p M : ℚ} {r : ℕ} (h : (r : ℚ) ≤ M) :
    feeChartLoop s p M r
      = (r, ((fee s r : ℚ) / 100000000) * p) :: feeChartLoop s p M (nextRate r) := by
  rw [feeChartLoop, dif_pos h]

/-- The loop stops when the rate is beyond the bound. -/
theorem feeChartLoop_of_not_le {s p M : ℚ} {r : ℕ} (h : ¬ (r : ℚ) ≤ M) :
    feeChartLoop s p M r = [] := by
  rw [feeChartLoop, dif_neg h]

/-- Every sampled point has a rate from the starting rate up to the bound, and the
value computed from the floored fee. -/
theorem feeChartLoop_mem (s p M : ℚ) (r : ℕ) :
    ∀ q ∈ feeChartLoop s p M r,
      r ≤ q.1 ∧ (q.1 : ℚ) ≤ M ∧ q.2 = ((fee s q.1 : ℚ) / 100000000) * p := by
  induction r using (feeChartLoop.induct s p M) with
  | case1 r h ih =>
    intro q hq
    rw [feeChartLoop_of_le h] at hq
    rcases List.mem_cons.mp hq with rfl | hq
    · exact ⟨le_rfl, h, rfl⟩
    · obtain ⟨a, b, c⟩ := ih q hq
      exact ⟨(lt_nextRate r).le.trans a, b, c⟩
  | case2 r h =>
    intro q hq
    rw [feeChartLoop_of_not_le h] at hq
    cases hq

/-- Each sampled rate is followed by the rate the loop update computes from it. -/
theorem feeChartLoop_chain (s p M : ℚ) (r : ℕ) :
    List.Chain' (fun a b : ℕ × ℚ => b.1 = nextRate a.1) (feeChartLoop s p M r) := by
  induction r using (feeChartLoop.induct s p M) with
  | case1 r h ih =>
    rw [feeChartLoop_of_le h, List.chain'_cons']
    refine ⟨?_, ih⟩
    intro y hy
    by_cases h2 : ((nextRate r : ℕ) : ℚ) ≤ M
    · rw [feeChartLoop_of_le h2] at hy
      simp only [List.head?_cons, Option.mem_def, Option.some.injEq] at hy
      rw [← hy]
    · rw [feeChartLoop_of_not_le h2] at hy
      simp at hy
  | case2 r h =>
    rw [feeChartLoop_of_not_le h]
    exact List.chain'_nil

/-- The sampled rates are strictly increasing. -/
theorem feeChartLoop_pairwise (s p M : ℚ) (r : ℕ) :
    (feeChartLoop s p M r).Pairwise (fun a b => a.1 < b.1) := by
  induction r using (feeChartLoop.induct s p M) with
  | case1 r h ih =>
    rw [feeChartLoop_of_le h, List.pairwise_cons]
    refine ⟨?_, ih⟩
    intro q hq
    exact lt_of_lt_of_le (lt_nextRate r) (feeChartLoop_mem s p M (nextRate r) q hq).1
  | case2 r h =>
    rw [feeChartLoop_of_not_le h]
    exact List.Pairwise.nil

/-- The loop runs at most as many rounds as there are integers from the starting rate
up to the bound. -/
theorem feeChartLoop_length (s p M : ℚ) (r : ℕ) :
    (feeChartLoop s p M r).length ≤ ⌊M⌋.toNat + 1 - r := by
  induction r using (feeChartLoop.induct s p M) with
  | case1 r h ih =>
    rw [feeChartLoop_of_le h, List.length_cons]
    have h1 : (r : ℤ) ≤ ⌊M⌋ := Int.le_floor.mpr (by exact_mod_cast h)
    have h2 := lt_nextRate r
    omega
  | case2 r h =>
    rw [feeChartLoop_of_not_le h]
    simp

/-- The loop does not stop early: the rate after the last sampled one is beyond the
bound. -/
theorem feeChartLoop_getLast (s p M : ℚ) (r : ℕ) :
    ∀ q, (feeChartLoop s p M r).getLast? = some q → M < (nextRate q.1 : ℕ) := by
  induction r using (feeChartLoop.induct s p M) with
  | case1 r h ih =>
    intro q hq
    rw [feeChartLoop_of_le h] at hq
    by_cases h2 : ((nextRate r : ℕ) : ℚ) ≤ M
    · rw [feeChartLoop_of_le h2, List.getLast?_cons_cons, ← feeChartLoop_of_le h2] at hq
      exact ih q hq
    · rw [feeChartLoop_of_not_le h2] at hq
      simp only [List.getLast?_singleton, Option.some.injEq] at hq
      rw [← hq]
      exact not_le.mp h2
  | case2 r h =>
    intro q hq
    rw [feeChartLoop_of_not_le h] at hq
    simp at hq

/-- The loop update adds the step of the range the rate lies in. -/
theorem nextRate_eq_add_step (r : ℕ) :
    nextRate r = r + (if r < 10 then 1 else if r < 50 then 2 else if r < 200 then 5
      else if r < 1000 then 25 else if r < 10000 then 100 else 1000) := by
  unfold nextRate
  split_ifs <;> rfl

/-- The rates sampled for size 100 and price 100000 up to the bound 12. -/
theorem feeChartLoop_rates_example :
    (feeChartLoop 100 100000 12 1).map Prod.fst = [1, 2, 3, 4, 5, 6, 7, 8, 9, 10, 12] := by
  have h : ∀ r : ℕ, (r : ℚ) ≤ 12 →
      (feeChartLoop 100 100000 12 r).map Prod.fst
        = r :: (feeChartLoop 100 100000 12 (nextRate r)).map Prod.fst := by
    intro r hr
    rw [feeChartLoop_of_le hr, List.map_cons]
  rw [h 1 (by norm_num), h _ (by norm_num [nextRate]), h _ (by norm_num [nextRate]),
    h _ (by norm_num [nextRate]), h _ (by norm_num [nextRate]), h _ (by norm_num [nextRate]),
    h _ (by norm_num [nextRate]), h _ (by norm_num [nextRate]), h _ (by norm_num [nextRate]),
    h _ (by norm_num [nextRate]), h _ (by norm_num [nextRate]),
    feeChartLoop_of_not_le (by norm_num [nextRate])]
  simp [nextRate]

/-- Claim C12: for every size, price and finite bound, the sampling loop terminates
(it is a total function and runs at most `floor maxRate` rounds) and yields rates that
start at 1 exactly when `1 ≤ maxRate`, are strictly increasing without duplicates, lie
between 1 and the bound, follow each rate `r` by `r + step r` with step 1 below 10, 2
below 50, 5 below 200, 25 below 1000, 100 below 10000 and 1000 from there on, and stop
only when the next rate is beyond the bound; the value of the point at rate `r` is
`floor (size * r) / 100000000 * price`. -/
theorem C12_fee_curve_sampling (size price maxRate : ℚ) :
    ((feeChartLoop size price maxRate 1).head?.map Prod.fst
        = if 1 ≤ maxRate then some 1 else none)
    ∧ (feeChartLoop size price maxRate 1).Pairwise (fun a b => a.1 < b.1)
    ∧ ((feeChartLoop size price maxRate 1).map Prod.fst).Nodup
    ∧ (∀ q ∈ feeChartLoop size price maxRate 1, 1 ≤ q.1 ∧ (q.1 : ℚ) ≤ maxRate)
    ∧ List.Chain' (fun a b : ℕ × ℚ => b.1 = a.1
        + (if a.1 < 10 then 1 else if a.1 < 50 then 2 else if a.1 < 200 then 5
          else if a.1 < 1000 then 25 else if a.1 < 10000 then 100 else 1000))
        (feeChartLoop size price maxRate 1)
    ∧ (∀ q, (feeChartLoop size price maxRate 1).getLast? = some q →
        maxRate < ((q.1
        + (if q.1 < 10 then 1 else if q.1 < 50 then 2 else if q.1 < 200 then 5
          else if q.1 < 1000 then 25 else if q.1 < 10000 then 100 else 1000) : ℕ) : ℚ))
    ∧ (∀ q ∈ feeChartLoop size price maxRate 1,
        q.2 = ((⌊size * q.1⌋ : ℤ) : ℚ) / 100000000 * price)
    ∧ (feeChartLoop size price maxRate 1).length ≤ ⌊maxRate⌋.toNat := by
  refine ⟨?_, feeChartLoop_pairwise _ _ _ _, ?_, ?_, ?_, ?_, ?_, ?_⟩
  · by_cases h : (1 : ℚ) ≤ maxRate
    · have h1 : ((1 : ℕ) : ℚ) ≤ maxRate := by exact_mod_cast h
      rw [feeChartLoop_of_le h1, if_pos h]
      rfl
    · have h1 : ¬ ((1 : ℕ) : ℚ) ≤ maxRate := by exact_mod_cast h
      rw [feeChartLoop_of_not_le h1, if_neg h]
      rfl
  · rw [List.Nodup, List.pairwise_map]
    exact (feeChartLoop_pairwise size price maxRate 1).imp (fun hab => ne_of_lt hab)
  · intro q hq
    obtain ⟨a, b, -⟩ := feeChartLoop_mem size price maxRate 1 q hq
    exact ⟨a, b⟩
  · refine (feeChartLoop_chain size price maxRate 1).imp ?_
    intro a b hab
    rw [hab, nextRate_eq_add_step]
  · intro q hq
    rw [← nextRate_eq_add_step]
    exact feeChartLoop_getLast size price maxRate 1 q hq
  · intro q hq
    exact (feeChartLoop_mem size price maxRate 1 q hq).2.2
  · have := feeChartLoop_length size price maxRate 1
    omega

/-! ## Results on the bound `chartMaxX` and on a size of 0 -/

/-- The double quotient `1 / 100000` is `0.00001` rounded to 53 binary digits. -/
theorem roundDouble_balance_over_price :
    roundDouble (1 / 100000) = 5902958103587057 * 2 ^ ((-17 : ℤ) - 52) := by
    apply roundDouble_eq_of_binade (-17) _
    · norm_num [abs_of_pos]
    · norm_num [abs_of_pos]
    · norm_num
    · norm_num [roundHalfEven]

/-- The double product of that quotient and `100000000` is `1000.0000000000001`. -/
theorem roundDouble_times_sats :
    roundDouble (5902958103587057 * 2 ^ ((-17 : ℤ) - 52) * 100000000)
      = 8796093022208001 * 2 ^ ((9 : ℤ) - 52) := by
    apply roundDouble_eq_of_binade 9 _
    · norm_num [abs_of_pos]
    · norm_num [abs_of_pos]
    · norm_num
    · norm_num [roundHalfEven]

/-- The double written `1.2` lies just below the rational `1.2`. -/
theorem roundDouble_literal_buffer :
    roundDouble 1.2 = 5404319552844595 * 2 ^ ((0 : ℤ) - 52) := by
    apply roundDouble_eq_of_binade 0 _
    · norm_num [abs_of_pos]
    · norm_num [abs_of_pos]
    · norm_num
    · norm_num [roundHalfEven]

/-- The clamp computed for a size of 10, a balance worth 1 and a price of 100000: the
four rounded operations give `120.00000000000001`, whose ceiling is 121. -/
theorem maxFeeRateToCalculate_example : maxFeeRateToCalculate 10 1 100000 = some 121 := by
  have h2 : roundDouble (8796093022208001 * 2 ^ ((9 : ℤ) - 52) / 10)
      = 7036874417766401 * 2 ^ ((6 : ℤ) - 52) := by
      apply roundDouble_eq_of_binade 6 _
      · norm_num [abs_of_pos]
      · norm_num [abs_of_pos]
      · norm_num
      · norm_num [roundHalfEven]
  have h3 : roundDouble (7036874417766401 * 2 ^ ((6 : ℤ) - 52)
        * (5404319552844595 * 2 ^ ((0 : ℤ) - 52)))
      = 8444249301319681 * 2 ^ ((6 : ℤ) - 52) := by
      apply roundDouble_eq_of_binade 6 _
      · norm_num [abs_of_pos]
      · norm_num [abs_of_pos]
      · norm_num
      · norm_num [roundHalfEven]
  have hpos : (10 : ℚ) > 0 ∧ (100000 : ℚ) > 0 := ⟨by norm_num, by norm_num⟩
  simp only [maxFeeRateToCalculate, if_pos hpos, roundDouble_balance_over_price,
    roundDouble_times_sats, roundDouble_literal_buffer, h2, h3]
  have hceil : ⌈(8444249301319681 * 2 ^ ((6 : ℤ) - 52) : ℚ)⌉ = 121 := by
    rw [Int.ceil_eq_iff]
    norm_num
  rw [hceil]
  norm_num

/-- The clamp computed for a size of 200, a balance worth 1 and a price of 100000: the
four rounded operations give `6.000000000000001`, whose ceiling is 7. -/
theorem maxFeeRateToCalculate_example_200 :
    maxFeeRateToCalculate 200 1 100000 = some 7 := by
  have h2 : roundDouble (8796093022208001 * 2 ^ ((9 : ℤ) - 52) / 200)
      = 5629499534213121 * 2 ^ ((2 : ℤ) - 52) := by
      apply roundDouble_eq_of_binade 2 _
      · norm_num [abs_of_pos]
      · norm_num [abs_of_pos]
      · norm_num
      · norm_num [roundHalfEven]
  have h3 : roundDouble (5629499534213121 * 2 ^ ((2 : ℤ) - 52)
        * (5404319552844595 * 2 ^ ((0 : ℤ) - 52)))
      = 6755399441055745 * 2 ^ ((2 : ℤ) - 52) := by
      apply roundDouble_eq_of_binade 2 _
      · norm_num [abs_of_pos]
      · norm_num [abs_of_pos]
      · norm_num
      · norm_num [roundHalfEven]
  have hpos : (200 : ℚ) > 0 ∧ (100000 : ℚ) > 0 := ⟨by norm_num, by norm_num⟩
  simp only [maxFeeRateToCalculate, if_pos hpos, roundDouble_balance_over_price,
    roundDouble_times_sats, roundDouble_literal_buffer, h2, h3]
  have hceil : ⌈(6755399441055745 * 2 ^ ((2 : ℤ) - 52) : ℚ)⌉ = 7 := by
    rw [Int.ceil_eq_iff]
    norm_num
  rw [hceil]
  norm_num

/-- The value before the clamp for a break-even rate of 100 with scaling enabled. -/
theorem chartMaxXBeforeClamp_example : chartMaxXBeforeClamp (some 100) true = 150 := by
  have h : roundDouble (100 * 1.5) = 5277655813324800 * 2 ^ ((7 : ℤ) - 52) := by
    apply roundDouble_eq_of_binade 7 _
    · norm_num [abs_of_pos]
    · norm_num [abs_of_pos]
    · norm_num
    · norm_num [roundHalfEven]
  simp only [chartMaxXBeforeClamp, h]
  norm_num

/-- The values the click handler stores for a balance of 1000 satoshis, a size of 10 and
a price of 100000: the break-even rate 100 and the balance worth 1. -/
theorem handler_values_example :
    globalIntersectionFeeRate 1000 10 = some 100 ∧ globalTotalBalanceUsd 1000 100000 = 1 := by
  have h : roundDouble (1000 / 10) = 7036874417766400 * 2 ^ ((6 : ℤ) - 52) := by
    apply roundDouble_eq_of_binade 6 _
    · norm_num [abs_of_pos]
    · norm_num [abs_of_pos]
    · norm_num
    · norm_num [roundHalfEven]
  have h0 : roundDouble (1000 / 100000000) = 5902958103587057 * 2 ^ ((-17 : ℤ) - 52) := by
    apply roundDouble_eq_of_binade (-17) _
    · norm_num [abs_of_pos]
    · norm_num [abs_of_pos]
    · norm_num
    · norm_num [roundHalfEven]
  have h1 : roundDouble (5902958103587057 * 2 ^ ((-17 : ℤ) - 52) * 100000)
      = 4503599627370496 * 2 ^ ((0 : ℤ) - 52) := by
    apply roundDouble_eq_of_binade 0 _
    · norm_num [abs_of_pos]
    · norm_num [abs_of_pos]
    · norm_num
    · norm_num [roundHalfEven]
  constructor
  · rw [globalIntersectionFeeRate, if_pos (by norm_num), h]
    norm_num
  · rw [globalTotalBalanceUsd, h0, h1]
    norm_num

/-- Claim C13, counterexample: for a balance of 1000 satoshis, a size of 10 and a price
of 100000 the handler stores the break-even rate 100 and the balance worth 1, yet the
bound is 121 with scaling enabled and with scaling disabled; it exceeds the break-even
rate and differs from `min (max (100 * 1.2) 100) 100` and from `min 5000 100`. -/
theorem C13_bound_exceeds_break_even :
    (globalIntersectionFeeRate 1000 10 = some 100 ∧ globalTotalBalanceUsd 1000 100000 = 1)
    ∧ chartMaxX 10 1 100000 (some 100) true = 121
    ∧ chartMaxX 10 1 100000 (some 100) false = 121
    ∧ ¬ chartMaxX 10 1 100000 (some 100) true ≤ 100
    ∧ ¬ chartMaxX 10 1 100000 (some 100) false ≤ 100
    ∧ chartMaxX 10 1 100000 (some 100) true ≠ min (max (100 * 1.2) 100) 100
    ∧ chartMaxX 10 1 100000 (some 100) false ≠ min 5000 100 := by
  have ht : chartMaxX 10 1 100000 (some 100) true = 121 := by
    simp only [chartMaxX, maxFeeRateToCalculate_example, chartMaxXBeforeClamp_example]
    norm_num
  have hf : chartMaxX 10 1 100000 (some 100) false = 121 := by
    simp only [chartMaxX, maxFeeRateToCalculate_example, chartMaxXBeforeClamp]
    norm_num
  refine ⟨handler_values_example, ht, hf, ?_, ?_, ?_, ?_⟩
  · rw [ht]; norm_num
  · rw [hf]; norm_num
  · rw [ht]; norm_num
  · rw [hf]; norm_num

/-- Claim C13, amended: before the clamp the bound is 5000 with scaling disabled and,
with scaling enabled, the larger of 100 and the double product of 1.5 and the supplied
break-even rate when that rate is present and positive (100 otherwise).  The routine
computes a clamp exactly when the size and the price are both positive; the bound is
then the smaller of the two values, and the unclamped value otherwise.  So the bound
never exceeds the value before the clamp, nor the clamp when there is one. -/
theorem C13_chart_bound_amended (size balanceUsd price : ℚ) (rate : Option ℚ)
    (scale : Bool) :
    chartMaxXBeforeClamp rate false = 5000
    ∧ chartMaxXBeforeClamp none true = 100
    ∧ (∀ r : ℚ, chartMaxXBeforeClamp (some r) true
        = if 0 < r then max (roundDouble (r * 1.5)) 100 else 100)
    ∧ ((∃ cap, maxFeeRateToCalculate size balanceUsd price = some cap)
        ↔ 0 < size ∧ 0 < price)
    ∧ chartMaxX size balanceUsd price rate scale
        = (match maxFeeRateToCalculate size balanceUsd price with
          | some cap => min (chartMaxXBeforeClamp rate scale) cap
          | none => chartMaxXBeforeClamp rate scale)
    ∧ chartMaxX size balanceUsd price rate scale ≤ chartMaxXBeforeClamp rate scale
    ∧ (∀ cap, maxFeeRateToCalculate size balanceUsd price = some cap →
        chartMaxX size balanceUsd price rate scale ≤ cap) := by
  refine ⟨by simp [chartMaxXBeforeClamp], by simp [chartMaxXBeforeClamp], ?_, ?_, rfl, ?_, ?_⟩
  · intro r
    by_cases hr : 0 < r
    · have h0 : (0 : ℚ) ≤ roundDouble (r * 1.5) := roundDouble_nonneg (by linarith)
      simp [chartMaxXBeforeClamp, hr, max_eq_right h0]
    · simp [chartMaxXBeforeClamp, hr]
  · unfold maxFeeRateToCalculate
    by_cases h : size > 0 ∧ price > 0
    · simp [h]
    · simp only [if_neg h]
      constructor
      · rintro ⟨cap, hc⟩
        cases hc
      · intro h2
        exact absurd h2 h
  · unfold chartMaxX
    cases maxFeeRateToCalculate size balanceUsd price with
    | none => exact le_rfl
    | some cap => exact min_le_left _ _
  · intro cap hc
    simp only [chartMaxX, hc]
    exact min_le_right _ _

/-- Witness for claim C13 as amended, at the input of the counterexample. -/
theorem C13_chart_bound_amended_witness :
    chartMaxX 10 1 100000 (some 100) true ≤ 121 :=
  (C13_chart_bound_amended 10 1 100000 (some 100) true).2.2.2.2.2.2 121
    maxFeeRateToCalculate_example

/-- Claim C15, counterexample: with every stored value at its initial state (size 0,
balance 0, price 0, no break-even rate) the sampled curve is not empty, with scaling
disabled and with scaling enabled. -/
theorem C15_size_zero_curve_nonempty :
    updateFeeChart 0 0 0 none false ≠ [] ∧ updateFeeChart 0 0 0 none true ≠ [] := by
  constructor
  · have h : ((1 : ℕ) : ℚ) ≤ chartMaxX 0 0 0 none false := by
      norm_num [chartMaxX, chartMaxXBeforeClamp, maxFeeRateToCalculate]
    rw [updateFeeChart, feeChartLoop_of_le h]
    exact List.cons_ne_nil _ _
  · have h : ((1 : ℕ) : ℚ) ≤ chartMaxX 0 0 0 none true := by
      norm_num [chartMaxX, chartMaxXBeforeClamp, maxFeeRateToCalculate]
    rw [updateFeeChart, feeChartLoop_of_le h]
    exact List.cons_ne_nil _ _

/-- Claim C15, amended: when the size is 0 the routine divides by nothing and applies no
clamp, so for every balance, price, break-even rate and scaling setting the bound is at
least 100 and the curve is not empty: its first point is at rate 1, and every sampled
value is 0. -/
theorem C15_size_zero_curve_amended (balanceUsd price : ℚ) (rate : Option ℚ)
    (scale : Bool) :
    maxFeeRateToCalculate 0 balanceUsd price = none
    ∧ 100 ≤ chartMaxX 0 balanceUsd price rate scale
    ∧ updateFeeChart 0 balanceUsd price rate scale ≠ []
    ∧ (updateFeeChart 0 balanceUsd price rate scale).head? = some (1, 0)
    ∧ (∀ q ∈ updateFeeChart 0 balanceUsd price rate scale, q.2 = 0) := by
  have hcap : maxFeeRateToCalculate 0 balanceUsd price = none := by
    simp [maxFeeRateToCalculate]
  have hmax : 100 ≤ chartMaxX 0 balanceUsd price rate scale := by
    simp only [chartMaxX, hcap]
    cases scale
    · norm_num [chartMaxXBeforeClamp]
    · simp [chartMaxXBeforeClamp]
  have h1 : ((1 : ℕ) : ℚ) ≤ chartMaxX 0 balanceUsd price rate scale := by
    push_cast
    linarith
  refine ⟨hcap, hmax, ?_, ?_, ?_⟩
  · rw [updateFeeChart, feeChartLoop_of_le h1]
    exact List.cons_ne_nil _ _
  · rw [updateFeeChart, feeChartLoop_of_le h1]
    simp [fee]
  · intro q hq
    rw [(feeChartLoop_mem _ _ _ _ q hq).2.2]
    simp [fee]

end UtxoConsolidator
